import Mathlib

/-!
Verification of the cone-structure partitioning core of
`src/examples/c/randomSOCPProb.c`.

The C program derives, from a variable count `n` and two fractions
`p_f`, `p_l`, the cone row counts `k->f`, `k->l` and a random sequence of
second-order-cone block sizes `k->q`.  We embed the integer computations of
`main` directly; `idxint` values are modelled as `ℤ`, the `double`
fractions as exact rationals `ℚ`, and the one transcendental computation
(`log`) over `ℝ`.  The C library `rand()` is modelled as a stream
`rands : ℕ → ℕ` of non-negative draws consumed sequentially (index `i`
below is the number of draws already consumed).
-/

namespace RandomSOCP

/-- Events of `main`, one per statement of interest, in source order.
Used to state control-flow facts (what is computed before/after the
`p_f + p_l > 1.0` check, and what is skipped on each early exit). -/
inductive Ev where
  | srandEv       -- srand(seed)
  | computeM      -- m = 3 * n
  | computeColNnz -- col_nnz = ceil(sqrt(n))
  | computeNnz    -- nnz = n * col_nnz
  | computeMaxQ   -- max_q = ceil(3n / log(3n))
  | checkFrac     -- if (p_f + p_l > 1.0)
  | printErrorEv  -- printf error, return 1
  | computeF      -- k->f = floor(3n * p_f)
  | computeL      -- k->l = floor(3n * p_l)
  | allocQ        -- k->q = malloc(q_num_rows * sizeof(idxint))
  | partitionEv   -- the while loop and trailing-block step
  | sumQEv        -- q_total = sum of k->q
  | setupDataEv   -- d->m, d->n assignments
  | genProbEv     -- genRandomProbData(...)
  | solveEv       -- scs(d, k, sol, &info)
  | printUsageEv  -- default: print usage, return 0
deriving DecidableEq

/-- The cone structure built by `main`: `k->f`, `k->l` and the list of
second-order cone sizes `k->q` (whose length is `k->qsize`). -/
structure Cone where
  f : ℤ
  l : ℤ
  q : List ℤ
deriving DecidableEq

/-- Process-level outcome of a run of `main` after argument parsing:
usage help (exit 0), the invalid-fraction error (exit 1), or a run that
reaches the partitioning code.  In the last case the payload is the built
cone structure; `none` records that the unguarded `log` left `max_q`
without a meaningful value (3n ≤ 1, see `max_q`). -/
inductive Outcome where
  | usage : Outcome
  | invalidFraction : Outcome
  | run : Option Cone → Outcome
deriving DecidableEq

/-- Source: `k->f = (idxint) floor(3 * n * p_f);` with `p_f` a `double`,
modelled as an exact rational. -/
def k_f (n : ℤ) (p_f : ℚ) : ℤ := ⌊3 * (n : ℚ) * p_f⌋

/-- Source: `k->l = (idxint) floor(3 * n * p_l);`. -/
def k_l (n : ℤ) (p_l : ℚ) : ℤ := ⌊3 * (n : ℚ) * p_l⌋

/-- Source: `q_num_rows = 3 * n - k->f - k->l;` — the row budget left for
the second-order cones, also the allocation size of the `k->q` array. -/
def q_num_rows (n : ℤ) (p_f p_l : ℚ) : ℤ := 3 * n - k_f n p_f - k_l n p_l

/-- Source: `max_q = (idxint) ceil(3 * n / log(3 * n));`.  The C `log` is
modelled by `Real.log`; the computation is meaningful only when the
argument `3n` exceeds 1 (for `3n ≤ 0` the C `log` yields `-inf`/NaN and
the cast to `idxint` is not meaningful), so the derived value is an
`Option`: `none` records the unguarded domain error. -/
noncomputable def max_q (n : ℤ) : Option ℤ :=
  if 1 < 3 * n then some ⌈((3 * n : ℤ) : ℝ) / Real.log ((3 * n : ℤ) : ℝ)⌉ else none

/-- Source, lines 97–107: the partition loop
`while (q_num_rows > max_q) { size = (rand() % max_q) + 1; k->q[k->qsize] = size; k->qsize++; q_num_rows -= size; }`
followed by `if (q_num_rows > 0) { k->q[k->qsize] = q_num_rows; k->qsize++; }`.
`rands i` is the value of the `i`-th `rand()` call; `max_q` is a `ℕ` here
since the loop is only reached with a positive derived `max_q`. -/
def partitionLoop (rands : ℕ → ℕ) (max_q : ℕ) (i : ℕ) (rem : ℤ) : List ℤ :=
  if _h : (max_q : ℤ) < rem then
    ((rands i % max_q + 1 : ℕ) : ℤ) ::
      partitionLoop rands max_q (i + 1) (rem - ((rands i % max_q + 1 : ℕ) : ℤ))
  else if 0 < rem then [rem] else []
termination_by rem.toNat
decreasing_by omega

/-- Fuel-indexed version of `partitionLoop`: runs at most `fuel` loop
iterations and answers `none` if the loop has not exited by then.  Used to
state termination of the while loop with an explicit iteration bound. -/
def partitionLoopFuel (rands : ℕ → ℕ) (max_q : ℕ) : ℕ → ℤ → ℕ → Option (List ℤ)
  | _, rem, 0 =>
      if (max_q : ℤ) < rem then none
      else some (if 0 < rem then [rem] else [])
  | i, rem, fuel + 1 =>
      if (max_q : ℤ) < rem then
        (partitionLoopFuel rands max_q (i + 1)
            (rem - ((rands i % max_q + 1 : ℕ) : ℤ)) fuel).map
          (((rands i % max_q + 1 : ℕ) : ℤ) :: ·)
      else some (if 0 < rem then [rem] else [])

/-- The cone structure produced by lines 93–107 of `main`, given the
already-derived `max_q`.  `none` when `max_q` itself is meaningless. -/
noncomputable def buildCone (n : ℤ) (p_f p_l : ℚ) (rands : ℕ → ℕ) : Option Cone :=
  (max_q n).map fun mq =>
    { f := k_f n p_f
      l := k_l n p_l
      q := partitionLoop rands mq.toNat 0 (q_num_rows n p_f p_l) }

/-- Effective `p_f` after the fallthrough `switch (argc)`: the fraction
arguments are read only for `argc = 4` or `argc = 5`; otherwise the
default `0.1` is used. -/
def p_f_eff (argc : ℕ) (p_f_arg : ℚ) : ℚ :=
  if argc = 4 ∨ argc = 5 then p_f_arg else 1 / 10

/-- Effective `p_l` after the fallthrough `switch (argc)`; default `0.3`. -/
def p_l_eff (argc : ℕ) (p_l_arg : ℚ) : ℚ :=
  if argc = 4 ∨ argc = 5 then p_l_arg else 3 / 10

/-- Outcome of a run of `main`: the `switch (argc)` accepts exactly
`argc ∈ {2, 4, 5}` (anything else prints usage and returns 0); then the
`p_f + p_l > 1.0` check; then the cone construction.  Note the switch
never inspects the sign of `n`. -/
noncomputable def mainOutcome (argc : ℕ) (n : ℤ) (p_f_arg p_l_arg : ℚ)
    (rands : ℕ → ℕ) : Outcome :=
  if argc = 2 ∨ argc = 4 ∨ argc = 5 then
    if 1 < p_f_eff argc p_f_arg + p_l_eff argc p_l_arg then .invalidFraction
    else .run (buildCone n (p_f_eff argc p_f_arg) (p_l_eff argc p_l_arg) rands)
  else .usage

/-- Exit status of `main`: `return 0` on usage help and on the normal
path, `return 1` on the invalid-fraction error. -/
def mainExitCode (argc : ℕ) (p_f_arg p_l_arg : ℚ) : ℤ :=
  if argc = 2 ∨ argc = 4 ∨ argc = 5 then
    if 1 < p_f_eff argc p_f_arg + p_l_eff argc p_l_arg then 1 else 0
  else 0

/-- Statement-level trace of `main`, in source order: `srand`, then the
derivations `m`, `col_nnz`, `nnz`, `max_q`, then the fraction check; on
failure only the error print follows, otherwise `k->f`, `k->l`, the
`k->q` allocation, the partition loop, the summation, the solver setup,
`genRandomProbData` and `scs`. -/
def mainEvents (argc : ℕ) (p_f_arg p_l_arg : ℚ) : List Ev :=
  if argc = 2 ∨ argc = 4 ∨ argc = 5 then
    [.srandEv, .computeM, .computeColNnz, .computeNnz, .computeMaxQ, .checkFrac] ++
      (if 1 < p_f_eff argc p_f_arg + p_l_eff argc p_l_arg then [.printErrorEv]
       else [.computeF, .computeL, .allocQ, .partitionEv, .sumQEv,
             .setupDataEv, .genProbEv, .solveEv])
  else [.printUsageEv]

/-! Basic facts about the partition loop. -/

theorem partitionLoop_sum_aux (rands : ℕ → ℕ) (mq : ℕ) (hmq : 1 ≤ mq) :
    ∀ N i (rem : ℤ), rem.toNat ≤ N → 0 ≤ rem →
      (partitionLoop rands mq i rem).sum = rem := by
  intro N
  induction N with
  | zero =>
    intro i rem hN h0
    rw [partitionLoop, dif_neg (by omega : ¬ ((mq : ℤ) < rem)),
      if_neg (by omega : ¬ (0 : ℤ) < rem)]
    simp; omega
  | succ N ih =>
    intro i rem hN h0
    rw [partitionLoop]
    by_cases hc : (mq : ℤ) < rem
    · rw [dif_pos hc, List.sum_cons]
      have hsz : rands i % mq < mq := Nat.mod_lt _ (by omega)
      rw [ih (i + 1) _ (by omega) (by omega)]
      ring
    · rw [dif_neg hc]
      by_cases h1 : (0 : ℤ) < rem
      · rw [if_pos h1]; simp
      · rw [if_neg h1]; simp; omega

/-- The emitted block sizes sum to the initial remaining row budget. -/
theorem partitionLoop_sum (rands : ℕ → ℕ) (mq : ℕ) (hmq : 1 ≤ mq) (i : ℕ)
    (rem : ℤ) (h0 : 0 ≤ rem) : (partitionLoop rands mq i rem).sum = rem :=
  partitionLoop_sum_aux rands mq hmq rem.toNat i rem le_rfl h0

theorem partitionLoop_mem_aux (rands : ℕ → ℕ) (mq : ℕ) (hmq : 1 ≤ mq) :
    ∀ N i (rem : ℤ), rem.toNat ≤ N →
      ∀ x ∈ partitionLoop rands mq i rem, 1 ≤ x ∧ x ≤ (mq : ℤ) := by
  intro N
  induction N with
  | zero =>
    intro i rem hN x hx
    rw [partitionLoop, dif_neg (by omega : ¬ ((mq : ℤ) < rem))] at hx
    by_cases h1 : (0 : ℤ) < rem
    · rw [if_pos h1] at hx
      simp at hx
      omega
    · rw [if_neg h1] at hx
      simp at hx
  | succ N ih =>
    intro i rem hN x hx
    rw [partitionLoop] at hx
    by_cases hc : (mq : ℤ) < rem
    · rw [dif_pos hc] at hx
      have hsz : rands i % mq < mq := Nat.mod_lt _ (by omega)
      rcases List.mem_cons.mp hx with h | h
      · subst h; constructor <;> [omega; omega]
      · exact ih (i + 1) _ (by omega) x h
    · rw [dif_neg hc] at hx
      by_cases h1 : (0 : ℤ) < rem
      · rw [if_pos h1] at hx
        simp at hx
        omega
      · rw [if_neg h1] at hx
        simp at hx

/-- Every emitted block size lies in `[1, max_q]`, the trailing block
included. -/
theorem partitionLoop_mem (rands : ℕ → ℕ) (mq : ℕ) (hmq : 1 ≤ mq) (i : ℕ)
    (rem : ℤ) : ∀ x ∈ partitionLoop rands mq i rem, 1 ≤ x ∧ x ≤ (mq : ℤ) :=
  partitionLoop_mem_aux rands mq hmq rem.toNat i rem le_rfl

theorem partitionLoop_length_aux (rands : ℕ → ℕ) (mq : ℕ) (hmq : 1 ≤ mq) :
    ∀ N i (rem : ℤ), rem.toNat ≤ N →
      (partitionLoop rands mq i rem).length ≤ rem.toNat := by
  intro N
  induction N with
  | zero =>
    intro i rem hN
    rw [partitionLoop, dif_neg (by omega : ¬ ((mq : ℤ) < rem)),
      if_neg (by omega : ¬ (0 : ℤ) < rem)]
    simp
  | succ N ih =>
    intro i rem hN
    rw [partitionLoop]
    by_cases hc : (mq : ℤ) < rem
    · rw [dif_pos hc]
      have hsz : rands i % mq < mq := Nat.mod_lt _ (by omega)
      have hrec := ih (i + 1) (rem - ((rands i % mq + 1 : ℕ) : ℤ)) (by omega)
      rw [List.length_cons]
      omega
    · rw [dif_neg hc]
      by_cases h1 : (0 : ℤ) < rem
      · rw [if_pos h1]; simp; omega
      · rw [if_neg h1]; simp

/-- The number of emitted blocks never exceeds the initial remaining row
budget (each block has size at least 1). -/
theorem partitionLoop_length (rands : ℕ → ℕ) (mq : ℕ) (hmq : 1 ≤ mq) (i : ℕ)
    (rem : ℤ) : (partitionLoop rands mq i rem).length ≤ rem.toNat :=
  partitionLoop_length_aux rands mq hmq rem.toNat i rem le_rfl

theorem partitionLoopFuel_eq_aux (rands : ℕ → ℕ) (mq : ℕ) :
    ∀ fuel i (rem : ℤ), rem.toNat ≤ fuel →
      partitionLoopFuel rands mq i rem fuel =
        some (partitionLoop rands mq i rem) := by
  intro fuel
  induction fuel with
  | zero =>
    intro i rem hN
    rw [partitionLoopFuel, partitionLoop,
      if_neg (by omega : ¬ ((mq : ℤ) < rem)),
      dif_neg (by omega : ¬ ((mq : ℤ) < rem))]
  | succ N ih =>
    intro i rem hN
    rw [partitionLoopFuel, partitionLoop]
    by_cases hc : (mq : ℤ) < rem
    · rw [if_pos hc, dif_pos hc, ih (i + 1) _ (by omega)]
      rfl
    · rw [if_neg hc, dif_neg hc]

/-- The while loop exits within `rem.toNat` iterations: running it with
that much fuel never hits fuel exhaustion and returns exactly the blocks
of the unbounded loop. -/
theorem partitionLoopFuel_eq (rands : ℕ → ℕ) (mq : ℕ) (i : ℕ) (rem : ℤ) :
    partitionLoopFuel rands mq i rem rem.toNat =
      some (partitionLoop rands mq i rem) :=
  partitionLoopFuel_eq_aux rands mq rem.toNat i rem le_rfl

/-! Facts about the derived row counts. -/

theorem k_f_nonneg (n : ℤ) (p_f : ℚ) (hn : 0 ≤ n) (hpf : 0 ≤ p_f) :
    0 ≤ k_f n p_f := by
  apply Int.floor_nonneg.mpr
  have hn' : (0 : ℚ) ≤ (n : ℚ) := by exact_mod_cast hn
  positivity

theorem k_l_nonneg (n : ℤ) (p_l : ℚ) (hn : 0 ≤ n) (hpl : 0 ≤ p_l) :
    0 ≤ k_l n p_l := by
  apply Int.floor_nonneg.mpr
  have hn' : (0 : ℚ) ≤ (n : ℚ) := by exact_mod_cast hn
  positivity

/-- The zero-cone and linear-cone rows never exceed the total `3n`. -/
theorem k_f_add_k_l_le (n : ℤ) (p_f p_l : ℚ) (hn : 0 ≤ n)
    (hsum : p_f + p_l ≤ 1) : k_f n p_f + k_l n p_l ≤ 3 * n := by
  have h1 : ((k_f n p_f : ℤ) : ℚ) ≤ 3 * (n : ℚ) * p_f := Int.floor_le _
  have h2 : ((k_l n p_l : ℤ) : ℚ) ≤ 3 * (n : ℚ) * p_l := Int.floor_le _
  have hn' : (0 : ℚ) ≤ 3 * (n : ℚ) := by
    have : (0 : ℚ) ≤ (n : ℚ) := by exact_mod_cast hn
    linarith
  have h3 : 3 * (n : ℚ) * (p_f + p_l) ≤ 3 * (n : ℚ) * 1 :=
    mul_le_mul_of_nonneg_left hsum hn'
  have h4 : ((k_f n p_f + k_l n p_l : ℤ) : ℚ) ≤ ((3 * n : ℤ) : ℚ) := by
    push_cast
    push_cast at h1 h2
    nlinarith
  exact_mod_cast h4

/-- The remaining row budget handed to the partitioner is non-negative. -/
theorem q_num_rows_nonneg (n : ℤ) (p_f p_l : ℚ) (hn : 0 ≤ n)
    (hsum : p_f + p_l ≤ 1) : 0 ≤ q_num_rows n p_f p_l := by
  have := k_f_add_k_l_le n p_f p_l hn hsum
  unfold q_num_rows
  omega

/-- The remaining row budget never exceeds `3n`. -/
theorem q_num_rows_le (n : ℤ) (p_f p_l : ℚ) (hn : 0 ≤ n)
    (hpf : 0 ≤ p_f) (hpl : 0 ≤ p_l) : q_num_rows n p_f p_l ≤ 3 * n := by
  have hf := k_f_nonneg n p_f hn hpf
  have hl := k_l_nonneg n p_l hn hpl
  unfold q_num_rows
  omega

/-- For every positive `n` the derived `max_q` is defined and positive. -/
theorem max_q_pos (n : ℤ) (hn : 1 ≤ n) :
    ∃ mq : ℤ, max_q n = some mq ∧ 1 ≤ mq := by
  have h3n : 1 < 3 * n := by omega
  refine ⟨⌈((3 * n : ℤ) : ℝ) / Real.log ((3 * n : ℤ) : ℝ)⌉, ?_, ?_⟩
  · rw [max_q, if_pos h3n]
  · have hcast : (1 : ℝ) < ((3 * n : ℤ) : ℝ) := by exact_mod_cast h3n
    have hlog : 0 < Real.log ((3 * n : ℤ) : ℝ) := Real.log_pos hcast
    have hpos : 0 < ((3 * n : ℤ) : ℝ) / Real.log ((3 * n : ℤ) : ℝ) :=
      div_pos (by linarith) hlog
    have := Int.ceil_pos.mpr hpos
    omega

/-- If `max_q n = some mq` with `n` positive, then `mq` is positive. -/
theorem max_q_some_pos (n : ℤ) (mq : ℤ) (hn : 1 ≤ n)
    (hmq : max_q n = some mq) : 1 ≤ mq := by
  obtain ⟨mq', hmq', h1⟩ := max_q_pos n hn
  rw [hmq, Option.some_inj] at hmq'
  omega

/-! Concrete values of `max_q`. -/

/-- At `n = 1`: `rows_total = 3`, `max_q = ceil(3 / ln 3) = 3`. -/
theorem max_q_one : max_q 1 = some 3 := by
  have hc : ((3 * (1 : ℤ) : ℤ) : ℝ) = 3 := by norm_num
  rw [max_q, if_pos (by norm_num : (1 : ℤ) < 3 * 1), hc, Option.some_inj]
  have h0 : (0 : ℝ) < 3 := by norm_num
  have hlog : 0 < Real.log 3 := Real.log_pos (by norm_num)
  have hub : Real.exp 1 ≤ 3 :=
    le_of_lt (lt_trans Real.exp_one_lt_d9 (by norm_num))
  have h1 : (1 : ℝ) ≤ Real.log 3 := (Real.le_log_iff_exp_le h0).mpr hub
  have hsum : (1 : ℝ) + 3 / 2 + (3 / 2) ^ 2 / 2 ≤ Real.exp (3 / 2) :=
    Real.quadratic_le_exp_of_nonneg (by norm_num)
  have hexp : (3 : ℝ) < Real.exp (3 / 2) := by nlinarith
  have h2 : Real.log 3 < 3 / 2 :=
    (Real.log_lt_iff_lt_exp h0).mpr hexp
  rw [Int.ceil_eq_iff]
  constructor
  · push_cast
    rw [lt_div_iff₀ hlog]
    nlinarith
  · push_cast
    rw [div_le_iff₀ hlog]
    nlinarith

/-- Upper Taylor bound: `exp (35/53) ≤ 1.9356`. -/
theorem exp_35_53_ub : Real.exp (35 / 53) ≤ 1.9356 := by
  have hb := Real.exp_bound' (by norm_num : (0 : ℝ) ≤ 35 / 53)
    (by norm_num : (35 : ℝ) / 53 ≤ 1) (by norm_num : 0 < 6)
  have hs : (∑ m ∈ Finset.range 6, ((35 : ℝ) / 53) ^ m / m.factorial) +
      ((35 : ℝ) / 53) ^ 6 * (6 + 1) / (Nat.factorial 6 * 6) ≤ 1.9356 := by
    simp [Finset.sum_range_succ, Nat.factorial]
    norm_num
  linarith

/-- Lower Taylor bound: `exp (10/13) ≥ 2.14`. -/
theorem exp_10_13_lb : (2.14 : ℝ) ≤ Real.exp (10 / 13) := by
  have hb := Real.sum_le_exp_of_nonneg (by norm_num : (0 : ℝ) ≤ 10 / 13) 4
  have hs : (2.14 : ℝ) ≤ ∑ i ∈ Finset.range 4, ((10 : ℝ) / 13) ^ i / i.factorial := by
    simp [Finset.sum_range_succ, Nat.factorial]
    norm_num
  linarith

/-- `exp (300/53) ≤ 300`: upper bound used for `ln 300 ≥ 300/53`. -/
theorem exp_300_53_ub : Real.exp (300 / 53) ≤ 300 := by
  have hsplit : (300 : ℝ) / 53 = 1 + (1 + (1 + (1 + (1 + 35 / 53)))) := by norm_num
  have he : Real.exp (300 / 53) =
      Real.exp 1 * (Real.exp 1 * (Real.exp 1 * (Real.exp 1 *
        (Real.exp 1 * Real.exp (35 / 53))))) := by
    rw [hsplit, Real.exp_add, Real.exp_add, Real.exp_add, Real.exp_add,
      Real.exp_add]
  have hE : Real.exp 1 ≤ 2.7182818286 := le_of_lt Real.exp_one_lt_d9
  have hEpos : (0 : ℝ) < Real.exp 1 := Real.exp_pos 1
  have hTpos : (0 : ℝ) < Real.exp (35 / 53) := Real.exp_pos _
  have hT := exp_35_53_ub
  rw [he]
  nlinarith [mul_pos hEpos hEpos, mul_pos (mul_pos hEpos hEpos) hEpos,
    mul_pos (mul_pos (mul_pos hEpos hEpos) hEpos) hEpos,
    mul_pos (mul_pos (mul_pos (mul_pos hEpos hEpos) hEpos) hEpos) hTpos]

/-- `300 < exp (300/52)`: lower bound used for `ln 300 < 300/52`. -/
theorem exp_300_52_lb : (300 : ℝ) < Real.exp (300 / 52) := by
  have hsplit : (300 : ℝ) / 52 = 1 + (1 + (1 + (1 + (1 + 10 / 13)))) := by norm_num
  have he : Real.exp (300 / 52) =
      Real.exp 1 * (Real.exp 1 * (Real.exp 1 * (Real.exp 1 *
        (Real.exp 1 * Real.exp (10 / 13))))) := by
    rw [hsplit, Real.exp_add, Real.exp_add, Real.exp_add, Real.exp_add,
      Real.exp_add]
  have hE : (2.7182818283 : ℝ) ≤ Real.exp 1 := le_of_lt Real.exp_one_gt_d9
  have hT := exp_10_13_lb
  have hEpos : (0 : ℝ) < Real.exp 1 := Real.exp_pos 1
  have h1 : (2.7182818283 : ℝ) * 2.14 ≤ Real.exp 1 * Real.exp (10 / 13) :=
    mul_le_mul hE hT (by norm_num) hEpos.le
  have h2 : (2.7182818283 : ℝ) * (2.7182818283 * 2.14) ≤
      Real.exp 1 * (Real.exp 1 * Real.exp (10 / 13)) :=
    mul_le_mul hE h1 (by norm_num) hEpos.le
  have h3 : (2.7182818283 : ℝ) * (2.7182818283 * (2.7182818283 * 2.14)) ≤
      Real.exp 1 * (Real.exp 1 * (Real.exp 1 * Real.exp (10 / 13))) :=
    mul_le_mul hE h2 (by norm_num) hEpos.le
  have h4 : (2.7182818283 : ℝ) * (2.7182818283 * (2.7182818283 *
      (2.7182818283 * 2.14))) ≤
      Real.exp 1 * (Real.exp 1 * (Real.exp 1 * (Real.exp 1 *
        Real.exp (10 / 13)))) :=
    mul_le_mul hE h3 (by norm_num) hEpos.le
  have h5 : (2.7182818283 : ℝ) * (2.7182818283 * (2.7182818283 *
      (2.7182818283 * (2.7182818283 * 2.14)))) ≤
      Real.exp 1 * (Real.exp 1 * (Real.exp 1 * (Real.exp 1 *
        (Real.exp 1 * Real.exp (10 / 13))))) :=
    mul_le_mul hE h4 (by norm_num) hEpos.le
  rw [he]
  calc (300 : ℝ) < 2.7182818283 * (2.7182818283 * (2.7182818283 *
        (2.7182818283 * (2.7182818283 * 2.14)))) := by norm_num
    _ ≤ _ := h5

/-- At `n = 100`: `rows_total = 300`, `max_q = ceil(300 / ln 300) = 53`. -/
theorem max_q_100 : max_q 100 = some 53 := by
  have hc : ((3 * (100 : ℤ) : ℤ) : ℝ) = 300 := by norm_num
  rw [max_q, if_pos (by norm_num : (1 : ℤ) < 3 * 100), hc, Option.some_inj]
  have h0 : (0 : ℝ) < 300 := by norm_num
  have hlog : 0 < Real.log 300 := Real.log_pos (by norm_num)
  have hlb : (300 : ℝ) / 53 ≤ Real.log 300 :=
    (Real.le_log_iff_exp_le h0).mpr exp_300_53_ub
  have hub : Real.log 300 < 300 / 52 :=
    (Real.log_lt_iff_lt_exp h0).mpr exp_300_52_lb
  rw [Int.ceil_eq_iff]
  constructor
  · push_cast
    rw [lt_div_iff₀ hlog]
    nlinarith
  · push_cast
    rw [div_le_iff₀ hlog]
    nlinarith

/-- Concrete evaluation of the whole pipeline at `n = 1` with the default
fractions and the all-zero draw stream: a single trailing block of size 3. -/
theorem buildCone_one :
    buildCone 1 (1 / 10) (3 / 10) (fun _ => 0) = some ⟨0, 0, [3]⟩ := by
  have hf : k_f 1 (1 / 10) = 0 := by rw [k_f]; norm_num
  have hl : k_l 1 (3 / 10) = 0 := by rw [k_l]; norm_num
  have hq : q_num_rows 1 (1 / 10) (3 / 10) = 3 := by
    rw [q_num_rows, hf, hl]; ring
  rw [buildCone, max_q_one, Option.map_some', hf, hl, hq, Option.some_inj]
  have h3 : (3 : ℤ).toNat = 3 := rfl
  rw [h3, partitionLoop, dif_neg (by norm_num), if_pos (by norm_num)]

/-! The claims. -/

/-- C1: Row conservation — for every valid input (`n` positive,
`p_f + p_l ≤ 1`), the derived counts satisfy
`k->f + k->l + sum(k->q) = 3n` exactly after the partition loop
completes. -/
theorem c1_row_conservation (n : ℤ) (p_f p_l : ℚ) (rands : ℕ → ℕ)
    (hn : 1 ≤ n) (_hpf : 0 ≤ p_f) (_hpl : 0 ≤ p_l) (hsum : p_f + p_l ≤ 1) :
    (buildCone n p_f p_l rands).map (fun k => k.f + k.l + k.q.sum) =
      some (3 * n) := by
  obtain ⟨mq, hmq, hmq1⟩ := max_q_pos n hn
  rw [buildCone, hmq, Option.map_some', Option.map_some', Option.some_inj]
  have hmqn : 1 ≤ mq.toNat := by omega
  rw [partitionLoop_sum rands mq.toNat hmqn 0 _
    (q_num_rows_nonneg n p_f p_l (by omega) hsum)]
  rw [q_num_rows]
  ring

theorem c1_row_conservation_witness :
    (buildCone 1 (1 / 10) (3 / 10) (fun _ => 0)).map
      (fun k => k.f + k.l + k.q.sum) = some (3 * 1) :=
  c1_row_conservation 1 (1 / 10) (3 / 10) (fun _ => 0) (by norm_num)
    (by norm_num) (by norm_num) (by norm_num)

/-- C2: Block bound and positivity — for every positive `n`, every entry
of the produced `k->q` lies in `[1, max_q]`, the final entry included; in
particular no entry is 0 or negative. -/
theorem c2_block_bounds (n : ℤ) (p_f p_l : ℚ) (rands : ℕ → ℕ) (mq : ℤ)
    (k : Cone) (hn : 1 ≤ n) (hmq : max_q n = some mq)
    (hk : buildCone n p_f p_l rands = some k) :
    ∀ x ∈ k.q, 1 ≤ x ∧ x ≤ mq := by
  have h1 : 1 ≤ mq := max_q_some_pos n mq hn hmq
  rw [buildCone, hmq, Option.map_some', Option.some_inj] at hk
  intro x hx
  rw [← hk] at hx
  have hb := partitionLoop_mem rands mq.toNat (by omega) 0
    (q_num_rows n p_f p_l) x hx
  have hcast : ((mq.toNat : ℕ) : ℤ) = mq := Int.toNat_of_nonneg (by omega)
  omega

theorem c2_block_bounds_witness : 1 ≤ (3 : ℤ) ∧ (3 : ℤ) ≤ 3 :=
  c2_block_bounds 1 (1 / 10) (3 / 10) (fun _ => 0) 3 ⟨0, 0, [3]⟩
    (by norm_num) max_q_one buildCone_one 3 (by simp)

/-- C3: Rejection of invalid fractions — whenever the fraction arguments
are read (`argc ∈ {4, 5}`) and `p_f + p_l > 1`, the run ends in the
invalid-fraction error with exit status 1, and neither `k->f`, `k->l`,
the `k->q` allocation, the partition loop, the instance builder nor the
solver is ever reached. -/
theorem c3_rejects_invalid_fractions (argc : ℕ) (n : ℤ) (p_f p_l : ℚ)
    (rands : ℕ → ℕ) (hargc : argc = 4 ∨ argc = 5) (hsum : 1 < p_f + p_l) :
    mainOutcome argc n p_f p_l rands = .invalidFraction ∧
    mainExitCode argc p_f p_l = 1 ∧
    Ev.computeF ∉ mainEvents argc p_f p_l ∧
    Ev.computeL ∉ mainEvents argc p_f p_l ∧
    Ev.allocQ ∉ mainEvents argc p_f p_l ∧
    Ev.partitionEv ∉ mainEvents argc p_f p_l ∧
    Ev.genProbEv ∉ mainEvents argc p_f p_l ∧
    Ev.solveEv ∉ mainEvents argc p_f p_l := by
  have ha : argc = 2 ∨ argc = 4 ∨ argc = 5 := by tauto
  have hf : p_f_eff argc p_f = p_f := by rw [p_f_eff, if_pos hargc]
  have hl : p_l_eff argc p_l = p_l := by rw [p_l_eff, if_pos hargc]
  have hcond : 1 < p_f_eff argc p_f + p_l_eff argc p_l := by
    rw [hf, hl]; exact hsum
  refine ⟨?_, ?_, ?_, ?_, ?_, ?_, ?_, ?_⟩
  · rw [mainOutcome, if_pos ha, if_pos hcond]
  · rw [mainExitCode, if_pos ha, if_pos hcond]
  all_goals rw [mainEvents, if_pos ha, if_pos hcond]; decide

theorem c3_rejects_invalid_fractions_witness :
    mainOutcome 4 10 (7 / 10) (5 / 10) (fun _ => 0) = .invalidFraction ∧
    mainExitCode 4 (7 / 10) (5 / 10) = 1 ∧
    Ev.computeF ∉ mainEvents 4 (7 / 10) (5 / 10) ∧
    Ev.computeL ∉ mainEvents 4 (7 / 10) (5 / 10) ∧
    Ev.allocQ ∉ mainEvents 4 (7 / 10) (5 / 10) ∧
    Ev.partitionEv ∉ mainEvents 4 (7 / 10) (5 / 10) ∧
    Ev.genProbEv ∉ mainEvents 4 (7 / 10) (5 / 10) ∧
    Ev.solveEv ∉ mainEvents 4 (7 / 10) (5 / 10) :=
  c3_rejects_invalid_fractions 4 10 (7 / 10) (5 / 10) (fun _ => 0)
    (Or.inl rfl) (by norm_num)

/-- C4 (counterexample): at `(n = 10, p_f = 0.7, p_l = 0.5)` the trace of
the run shows `m`, `col_nnz`, `nnz` and `max_q` all computed before the
`p_f + p_l > 1.0` check fires, refuting the claim that no derived
quantity is computed before the check. -/
theorem c4_counterexample :
    mainEvents 4 (7 / 10) (5 / 10) =
      [Ev.srandEv, Ev.computeM, Ev.computeColNnz, Ev.computeNnz,
       Ev.computeMaxQ, Ev.checkFrac, Ev.printErrorEv] ∧
    List.indexOf Ev.computeMaxQ (mainEvents 4 (7 / 10) (5 / 10)) <
      List.indexOf Ev.checkFrac (mainEvents 4 (7 / 10) (5 / 10)) := by
  have h : mainEvents 4 (7 / 10) (5 / 10) =
      [Ev.srandEv, Ev.computeM, Ev.computeColNnz, Ev.computeNnz,
       Ev.computeMaxQ, Ev.checkFrac, Ev.printErrorEv] := by
    rw [mainEvents, if_pos (by norm_num),
      if_pos (by norm_num [p_f_eff, p_l_eff])]
    rfl
  refine ⟨h, ?_⟩
  rw [h]
  decide

/-- C4 (amended): the `p_f + p_l > 1.0` check is performed after the
derivations of `m`, `col_nnz`, `nnz` and `max_q`, but before `k->f`,
`k->l` and the row allocation; when it fails, only the error print
follows, so no row allocation proceeds. -/
theorem c4_check_after_prelims (argc : ℕ) (p_f p_l : ℚ)
    (hargc : argc = 4 ∨ argc = 5) (hsum : 1 < p_f + p_l) :
    mainEvents argc p_f p_l =
      [Ev.srandEv, Ev.computeM, Ev.computeColNnz, Ev.computeNnz,
       Ev.computeMaxQ, Ev.checkFrac, Ev.printErrorEv] := by
  have ha : argc = 2 ∨ argc = 4 ∨ argc = 5 := by tauto
  have hf : p_f_eff argc p_f = p_f := by rw [p_f_eff, if_pos hargc]
  have hl : p_l_eff argc p_l = p_l := by rw [p_l_eff, if_pos hargc]
  have hcond : 1 < p_f_eff argc p_f + p_l_eff argc p_l := by
    rw [hf, hl]; exact hsum
  rw [mainEvents, if_pos ha, if_pos hcond]
  rfl

theorem c4_check_after_prelims_witness :
    mainEvents 5 (6 / 10) (6 / 10) =
      [Ev.srandEv, Ev.computeM, Ev.computeColNnz, Ev.computeNnz,
       Ev.computeMaxQ, Ev.checkFrac, Ev.printErrorEv] :=
  c4_check_after_prelims 5 (6 / 10) (6 / 10) (Or.inr rfl) (by norm_num)

/-- C5 (counterexample): with `argc = 2` and the non-positive variable
count `n = -7`, the program does not take the usage branch; it proceeds
past parsing into the derivation (where the unguarded `log` of a
non-positive argument leaves the construction undefined), refuting the
claim that a non-positive `n` is propagated as a usage error. -/
theorem c5_counterexample :
    mainOutcome 2 (-7) (1 / 10) (3 / 10) (fun _ => 0) = .run none ∧
    mainOutcome 2 (-7) (1 / 10) (3 / 10) (fun _ => 0) ≠ .usage := by
  have h : mainOutcome 2 (-7) (1 / 10) (3 / 10) (fun _ => 0) = .run none := by
    rw [mainOutcome, if_pos (Or.inl rfl)]
    rw [if_neg (by rw [p_f_eff, p_l_eff]; norm_num)]
    rw [buildCone, max_q, if_neg (by norm_num)]
    rfl
  exact ⟨h, by rw [h]; intro hc; exact Outcome.noConfusion hc⟩

/-- C5 (amended): the program performs no positivity validation on `n`:
every accepted argument count (2, 4 or 5) proceeds past parsing
regardless of the sign of `n`, and when the fraction check passes a
non-positive `n` flows into the derivation, where the unguarded
logarithm leaves the cone construction undefined.  The usage branch is
taken only for argument counts other than 2, 4 and 5. -/
theorem c5_no_n_validation (argc : ℕ) (n : ℤ) (p_f p_l : ℚ)
    (rands : ℕ → ℕ) (hargc : argc = 2 ∨ argc = 4 ∨ argc = 5) (hn : n ≤ 0) :
    mainOutcome argc n p_f p_l rands ≠ .usage ∧
    (¬ 1 < p_f_eff argc p_f + p_l_eff argc p_l →
      mainOutcome argc n p_f p_l rands = .run none) := by
  constructor
  · rw [mainOutcome, if_pos hargc]
    by_cases hc : 1 < p_f_eff argc p_f + p_l_eff argc p_l
    · rw [if_pos hc]; intro h; exact Outcome.noConfusion h
    · rw [if_neg hc]; intro h; exact Outcome.noConfusion h
  · intro hc
    rw [mainOutcome, if_pos hargc, if_neg hc]
    have hmq : max_q n = none := by rw [max_q, if_neg (by omega)]
    rw [buildCone, hmq]
    rfl

theorem c5_no_n_validation_witness :
    mainOutcome 2 0 (1 / 10) (3 / 10) (fun _ => 0) = .run none :=
  (c5_no_n_validation 2 0 (1 / 10) (3 / 10) (fun _ => 0) (Or.inl rfl)
    le_rfl).2 (by rw [p_f_eff, p_l_eff]; norm_num)

/-- C6 (counterexample): at `n = -1` nothing guards the logarithm: the
derivation still computes `max_q` (it appears in the trace of every
accepted run), and the log's domain error propagates into the derived
`max_q` and the cone construction (modelled as `none`), refuting the
claim that the computation is explicitly guarded. -/
theorem c6_counterexample :
    max_q (-1) = none ∧
    buildCone (-1) (1 / 10) (3 / 10) (fun _ => 0) = none ∧
    Ev.computeMaxQ ∈ mainEvents 2 (1 / 10) (3 / 10) := by
  have hmq : max_q (-1) = none := by rw [max_q, if_neg (by norm_num)]
  refine ⟨hmq, ?_, ?_⟩
  · rw [buildCone, hmq]; rfl
  · rw [mainEvents, if_pos (Or.inl rfl),
      if_neg (by norm_num [p_f_eff, p_l_eff])]
    simp

/-- C6 (amended): the program does not guard `max_q`'s logarithm at all —
`max_q` is computed unconditionally on every accepted run, and for every
`n ≤ 0` (so `rows_total = 3n ≤ 1`, outside the logarithm's meaningful
domain) the domain error propagates into the derived `max_q` and from
there into the cone construction, modelled as `none`. -/
theorem c6_unguarded_log (n : ℤ) (p_f p_l : ℚ) (rands : ℕ → ℕ)
    (hn : n ≤ 0) :
    max_q n = none ∧ buildCone n p_f p_l rands = none ∧
    Ev.computeMaxQ ∈ mainEvents 2 p_f p_l := by
  have hmq : max_q n = none := by rw [max_q, if_neg (by omega)]
  refine ⟨hmq, ?_, ?_⟩
  · rw [buildCone, hmq]; rfl
  · rw [mainEvents, if_pos (Or.inl rfl)]
    by_cases hc : 1 < p_f_eff 2 p_f + p_l_eff 2 p_l
    · rw [if_pos hc]; simp
    · rw [if_neg hc]; simp

theorem c6_unguarded_log_witness :
    max_q 0 = none ∧ buildCone 0 (1 / 10) (3 / 10) (fun _ => 0) = none ∧
    Ev.computeMaxQ ∈ mainEvents 2 (1 / 10) (3 / 10) :=
  c6_unguarded_log 0 (1 / 10) (3 / 10) (fun _ => 0) le_rfl

/-- C7: Determinism — the produced cone structure is a function of
`(n, p_f, p_l)` and the seeded draw stream alone: two runs whose streams
return the same value at every call produce identical `k->q` sequences
(and identical `k->f`, `k->l`). -/
theorem c7_determinism (n : ℤ) (p_f p_l : ℚ) (s₁ s₂ : ℕ → ℕ)
    (h : ∀ j, s₁ j = s₂ j) :
    buildCone n p_f p_l s₁ = buildCone n p_f p_l s₂ := by
  have hs : s₁ = s₂ := funext h
  rw [hs]

theorem c7_determinism_witness :
    buildCone 5 (1 / 10) (3 / 10) (fun j => j) =
      buildCone 5 (1 / 10) (3 / 10) (fun j => 0 + j) :=
  c7_determinism 5 (1 / 10) (3 / 10) (fun j => j) (fun j => 0 + j)
    (fun j => (Nat.zero_add j).symm)

/-- C8: Termination of the partition loop — for every positive `n` with a
derived `max_q`, the while loop exits within `q_num_rows` iterations
(each iteration subtracts a drawn size of at least 1): running the loop
with that much fuel never exhausts it and yields exactly the blocks of
the unbounded loop. -/
theorem c8_loop_terminates (n : ℤ) (p_f p_l : ℚ) (rands : ℕ → ℕ) (mq : ℤ)
    (_hn : 1 ≤ n) (_hmq : max_q n = some mq) :
    partitionLoopFuel rands mq.toNat 0 (q_num_rows n p_f p_l)
        (q_num_rows n p_f p_l).toNat =
      some (partitionLoop rands mq.toNat 0 (q_num_rows n p_f p_l)) :=
  partitionLoopFuel_eq rands mq.toNat 0 (q_num_rows n p_f p_l)

theorem c8_loop_terminates_witness :
    partitionLoopFuel (fun _ => 0) (3 : ℤ).toNat 0
        (q_num_rows 1 (1 / 10) (3 / 10))
        (q_num_rows 1 (1 / 10) (3 / 10)).toNat =
      some (partitionLoop (fun _ => 0) (3 : ℤ).toNat 0
        (q_num_rows 1 (1 / 10) (3 / 10))) :=
  c8_loop_terminates 1 (1 / 10) (3 / 10) (fun _ => 0) 3 (by norm_num)
    max_q_one

/-- C9: Worked example — for `n = 100`, `p_f = 0.1`, `p_l = 0.3` the
deriver yields `rows_total = 300`, `zero_rows = 30`, `linear_rows = 90`,
`remaining = 180` and `max_q = ceil(300 / ln 300) = 53`, and the
partitioner produces blocks each in `[1, 53]` summing exactly to 180. -/
theorem c9_worked_example (rands : ℕ → ℕ) :
    (3 : ℤ) * 100 = 300 ∧
    k_f 100 (1 / 10) = 30 ∧
    k_l 100 (3 / 10) = 90 ∧
    q_num_rows 100 (1 / 10) (3 / 10) = 180 ∧
    max_q 100 = some 53 ∧
    (buildCone 100 (1 / 10) (3 / 10) rands).map
      (fun k => (k.f, k.l, k.q.sum)) = some (30, 90, 180) ∧
    (partitionLoop rands 53 0 180).sum = 180 ∧
    ∀ x ∈ partitionLoop rands 53 0 180, 1 ≤ x ∧ x ≤ 53 := by
  have hf : k_f 100 (1 / 10) = 30 := by rw [k_f]; norm_num
  have hl : k_l 100 (3 / 10) = 90 := by rw [k_l]; norm_num
  have hq : q_num_rows 100 (1 / 10) (3 / 10) = 180 := by
    rw [q_num_rows, hf, hl]; ring
  have hsum53 : (partitionLoop rands 53 0 180).sum = 180 :=
    partitionLoop_sum rands 53 (by norm_num) 0 180 (by norm_num)
  refine ⟨by norm_num, hf, hl, hq, max_q_100, ?_, hsum53, ?_⟩
  · rw [buildCone, max_q_100, Option.map_some', Option.map_some',
      Option.some_inj, hf, hl, hq]
    have h53 : (53 : ℤ).toNat = 53 := rfl
    rw [h53, hsum53]
  · intro x hx
    have hb := partitionLoop_mem rands 53 (by norm_num) 0 180 x hx
    omega

theorem c9_worked_example_witness : max_q 100 = some 53 :=
  (c9_worked_example (fun _ => 0)).2.2.2.2.1

/-- C10: Array-bounds safety of the block buffer — for every valid input
the number of emitted blocks `k->qsize` never exceeds the initial
remaining row count `q_num_rows` with which `k->q` is allocated, so every
write `k->q[k->qsize]` in the loop and the trailing-block step is within
the allocated bounds. -/
theorem c10_qsize_within_alloc (n : ℤ) (p_f p_l : ℚ) (rands : ℕ → ℕ)
    (k : Cone) (hn : 1 ≤ n) (_hpf : 0 ≤ p_f) (_hpl : 0 ≤ p_l)
    (hsum : p_f + p_l ≤ 1) (hk : buildCone n p_f p_l rands = some k) :
    (k.q.length : ℤ) ≤ q_num_rows n p_f p_l := by
  obtain ⟨mq, hmq, hmq1⟩ := max_q_pos n hn
  rw [buildCone, hmq, Option.map_some', Option.some_inj] at hk
  have hlen := partitionLoop_length rands mq.toNat (by omega) 0
    (q_num_rows n p_f p_l)
  have h0 := q_num_rows_nonneg n p_f p_l (by omega) hsum
  rw [← hk]
  simp only []
  omega

theorem c10_qsize_within_alloc_witness :
    (((Cone.mk 0 0 [3]).q.length : ℕ) : ℤ) ≤ q_num_rows 1 (1 / 10) (3 / 10) :=
  c10_qsize_within_alloc 1 (1 / 10) (3 / 10) (fun _ => 0) ⟨0, 0, [3]⟩
    (by norm_num) (by norm_num) (by norm_num) (by norm_num) buildCone_one

end RandomSOCP
